import Mathlib

/-!
Verification of the column-selector parser and tabular loader of
`azure_chatgpt.py` against its specification.

The embedding is shallow:
* Python strings are Lean `String`s / `List Char`s (all claims involve ASCII,
  so `\s`, `\d`, `str.isdigit`, `str.strip`, `str.lower` are modelled on the
  ASCII subset).
* A CSV file already parsed into cells is a `Df` (header + rows of string
  cells); `dtype=str` means every cell is a string, and `fillna("")` is the
  identity on this model since missing cells are already the empty string.
* The fallible `pandas.read_csv(..., usecols=...)` calls return
  `Except Unit Df`; the repair logic of `csv_to_text` makes the composition
  total.  `read_csv` semantics for `usecols`: a mixed list of integers and
  strings is rejected (ValueError), an out-of-range position or a name absent
  from the header is rejected (ValueError), element order is ignored (selected
  columns come back in file order, duplicates collapsed), and `usecols=[]`
  yields a table with zero columns and zero rows.
-/

/-- ASCII model of Python whitespace (the characters stripped by `str.strip()`
and matched by the regex class `\s`). -/
def isPySpace (c : Char) : Bool :=
  c == ' ' || c == '\t' || c == '\n' || c == '\r' || c == '\x0B' || c == '\x0C'

/-- Python `s.strip()` on a character list. -/
def pyStrip (cs : List Char) : List Char :=
  ((cs.dropWhile isPySpace).reverse.dropWhile isPySpace).reverse

/-- Python `s.split(",")`: split at every comma, empty pieces kept. -/
def splitComma : List Char → List (List Char)
  | [] => [[]]
  | c :: rest =>
    if c = ',' then [] :: splitComma rest
    else
      match splitComma rest with
      | [] => [[c]]
      | t :: ts => (c :: t) :: ts

/-- Python `int(tok)` on a digit string: decimal value of the digits. -/
def natOfDigits (cs : List Char) : Nat :=
  cs.foldl (fun n c => n * 10 + (c.toNat - 48)) 0

/-- The regex `^\s*(\d+)\s*[:\-]\s*(\d+)\s*$` (`_RANGE_RE`), returning the two
captured integers on a match.  Maximal munch on `\d+` is equivalent to the
regex's backtracking here because the character after each `\d+` can never be
a digit. -/
def matchRange (cs : List Char) : Option (Nat × Nat) :=
  let s0 := cs.dropWhile isPySpace
  let d1 := s0.takeWhile Char.isDigit
  let r1 := s0.dropWhile Char.isDigit
  if d1 = [] then none
  else
    match r1.dropWhile isPySpace with
    | [] => none
    | c :: r3 =>
      if c = ':' ∨ c = '-' then
        let r4 := r3.dropWhile isPySpace
        let d2 := r4.takeWhile Char.isDigit
        let r5 := r4.dropWhile Char.isDigit
        if d2 = [] then none
        else if r5.dropWhile isPySpace = [] then some (natOfDigits d1, natOfDigits d2)
        else none
      else none

/-- Python `tok.isdigit()` (ASCII): non-empty and all digits. -/
def pyIsDigit (cs : List Char) : Bool :=
  !cs.isEmpty && cs.all Char.isDigit

/-- A column selector: a zero-based position or a literal name (the
`Union[int, str]` elements produced by `_parse_usecols_expr`). -/
inductive Sel where
  | pos : Nat → Sel
  | name : String → Sel
deriving DecidableEq

def Sel.isPos : Sel → Bool
  | .pos _ => true
  | .name _ => false

def Sel.isName : Sel → Bool
  | .pos _ => false
  | .name _ => true

/-- The per-token branch of `_parse_usecols_expr`'s loop body: a range match
expands ascending, a digit token becomes a position, anything else is a
literal name. -/
def parseTok (tok : List Char) : List Sel :=
  match matchRange tok with
  | some (a, b) =>
    let lo := if a ≤ b then a else b
    let hi := if a ≤ b then b else a
    (List.range' lo (hi + 1 - lo)).map Sel.pos
  | none =>
    if pyIsDigit tok then [Sel.pos (natOfDigits tok)]
    else [Sel.name (String.mk tok)]

/-- `_parse_usecols_expr`: split on commas, strip each token, drop empties,
then translate each token. -/
def parse_usecols_expr (expr : String) : List Sel :=
  (((splitComma expr.data).map pyStrip).filter (fun t => !t.isEmpty)).flatMap parseTok

/-- An in-memory table: header plus rows of string cells. -/
structure Df where
  header : List String
  rows : List (List String)
deriving DecidableEq

/-- Restrict a table to the columns at the given indices (in the given
order). -/
def selectIdxs (df : Df) (idxs : List Nat) : Df :=
  ⟨idxs.map (fun i => df.header.getD i ""),
   df.rows.map (fun r => idxs.map (fun i => r.getD i ""))⟩

/-- `pandas.read_csv(path, usecols=us, dtype=str, ...)` on an already-parsed
file: mixed integer/string lists are rejected, as are out-of-range positions
and unknown names; valid selections come back in file order; `usecols=[]`
yields an empty (zero-column, zero-row) table. -/
def readCsvUse (file : Df) (us : List Sel) : Except Unit Df :=
  if us.isEmpty then .ok ⟨[], []⟩
  else if us.all Sel.isPos then
    if us.all (fun s => match s with | .pos n => decide (n < file.header.length) | .name _ => true) then
      .ok (selectIdxs file ((List.range file.header.length).filter (fun i => decide (Sel.pos i ∈ us))))
    else .error ()
  else if us.all Sel.isName then
    if us.all (fun s => match s with | .name n => file.header.contains n | .pos _ => true) then
      .ok (selectIdxs file ((List.range file.header.length).filter
        (fun i => decide (Sel.name (file.header.getD i "") ∈ us))))
    else .error ()
  else .error ()

/-- `pandas.read_csv` with an optional `usecols` (`None` reads everything). -/
def readCsv (file : Df) : Option (List Sel) → Except Unit Df
  | none => .ok file
  | some us => readCsvUse file us

/-- The validity test of the repair loop (lines 57-62): an integer position is
kept when `0 <= c <= max_idx`, a name when it occurs in the true header. -/
def selValid (names : List String) : Sel → Bool
  | .pos n => decide (n < names.length)
  | .name s => names.contains s

/-- `names[i]` for the integer selectors of `fixed` (line 68, first list). -/
def posKeepName (names : List String) : Sel → Option String
  | .pos n => some (names.getD n "")
  | .name _ => none

/-- The string selectors of `fixed` (line 68, second list). -/
def nameKeep : Sel → Option String
  | .name s => some s
  | .pos _ => none

/-- `df[keep]`: project a table onto the named columns, in `keep` order. -/
def dfProject (df : Df) (keep : List String) : Df :=
  ⟨keep, df.rows.map (fun r => keep.map (fun n => r.getD (df.header.indexOf n) ""))⟩

/-- Lines 70-71: `if keep: df = df[keep]` applied to the full table (the
double-fallback read of line 67 is the full unrestricted read). -/
def loadProject (file : Df) (keep2 : List String) : Df :=
  if !keep2.isEmpty then dfProject file keep2 else file

/-- Lines 63-73: given the corrected selector list `fixed`, retry the
restricted read; on a second failure fall back to the full table projected
onto the corrected selectors' names (positions mapped through the true
header first, then name selectors, both filtered against the full table's
columns); with an empty corrected list read the whole file. -/
def loadRepair (file : Df) (fixed : List Sel) : Df :=
  if !fixed.isEmpty then
    match readCsvUse file fixed with
    | .ok df => df
    | .error _ =>
      loadProject file
        ((fixed.filterMap (posKeepName file.header) ++ fixed.filterMap nameKeep).filter
          (fun c => file.header.contains c))
  else file

/-- Lines 48-73 of `csv_to_text`: the restricted read; on a `ValueError` the
repair path recomputes the selector list against the true header (lines
52-62) and continues in `loadRepair`. -/
def loadDf (file : Df) (cols : Option (List Sel)) : Df :=
  match readCsv file cols with
  | .ok df => df
  | .error _ => loadRepair file ((cols.getD []).filter (selValid file.header))

/-- The fixed truncation suffix of line 78. -/
def truncMarker : String := "...[TRUNC]..."

/-- Line 78's cell map: cells over 500 characters are cut to their first 450
characters plus the marker (Python `x[:450]` slices code points, as does
`List.take` on `String.data`). -/
def truncCell (x : String) : String :=
  if x.length ≤ 500 then x else String.mk (x.data.take 450) ++ truncMarker

/-- Lines 76-78: `fillna("")` (identity on string cells) followed by the
per-cell truncation, applied column by column, hence cell by cell. -/
def transformDf (df : Df) : Df :=
  ⟨df.header, df.rows.map (fun r => r.map truncCell)⟩

/-- One CSV field of `DataFrame.to_csv` (minimal quoting): quote when the
value contains a comma, quote, or line break, doubling inner quotes. -/
def csvField (s : String) : String :=
  if s.data.any (fun c => c == ',' || c == '"' || c == '\n' || c == '\r') then
    "\"" ++ String.mk (s.data.flatMap (fun c => if c = '"' then ['"', '"'] else [c])) ++ "\""
  else s

/-- One line of `DataFrame.to_csv`. -/
def csvLine (r : List String) : String :=
  String.intercalate "," (r.map csvField)

/-- `df.to_csv(index=False)`: header line then data lines, each newline
terminated. -/
def dfToCsv (df : Df) : String :=
  csvLine df.header ++ "\n" ++ String.join (df.rows.map (fun r => csvLine r ++ "\n"))

/-- Line 46: `cols = _parse_usecols_expr(usecols) if usecols else None`
(`None` and the empty string are falsy). -/
def colsOf (usecols : Option String) : Option (List Sel) :=
  match usecols with
  | none => none
  | some s => if s = "" then none else some (parse_usecols_expr s)

/-- `csv_to_text`: load (with repair), record the row count, transform, and
serialize. -/
def csv_to_text (file : Df) (usecols : Option String) : String × Nat :=
  let df := loadDf file (colsOf usecols)
  let n := df.rows.length
  (dfToCsv (transformDf df), n)

/-- Python `s.lower()` (ASCII model). -/
def pyLower (s : String) : String :=
  String.mk (s.data.map Char.toLower)

/-- Python `s.strip()` on a `String`. -/
def pyStripStr (s : String) : String :=
  String.mk (pyStrip s.data)

/-- `_effort_or_none`: falsy input gives `None`; otherwise the stripped,
lowercased value is kept only when it is one of the four allowed levels. -/
def effort_or_none (s : Option String) : Option String :=
  match s with
  | none => none
  | some s =>
    if s = "" then none
    else if pyLower (pyStripStr s) = "minimal" ∨ pyLower (pyStripStr s) = "low" ∨
        pyLower (pyStripStr s) = "medium" ∨ pyLower (pyStripStr s) = "high" then
      some (pyLower (pyStripStr s))
    else none

/-- Line 156-157 of `main`: the `reasoning` parameter is added to the request
only when `reasoning_effort` is truthy. -/
def reasoningField (r : Option String) : Option String :=
  match r with
  | none => none
  | some v => if v = "" then none else some v

/-! ### Generic list helpers -/

theorem takeWhile_append_of_all {α} (p : α → Bool) (l1 l2 : List α)
    (h : l1.all p = true) : (l1 ++ l2).takeWhile p = l1 ++ l2.takeWhile p := by
  induction l1 with
  | nil => simp
  | cons x xs ih =>
    simp only [List.all_cons, Bool.and_eq_true] at h
    simp [List.takeWhile_cons, h.1, ih h.2]

theorem dropWhile_append_of_all {α} (p : α → Bool) (l1 l2 : List α)
    (h : l1.all p = true) : (l1 ++ l2).dropWhile p = l2.dropWhile p := by
  induction l1 with
  | nil => simp
  | cons x xs ih =>
    simp only [List.all_cons, Bool.and_eq_true] at h
    simp [List.dropWhile_cons, h.1, ih h.2]

theorem takeWhile_all {α} {p : α → Bool} {l : List α} (h : l.all p = true) :
    l.takeWhile p = l := by
  have := takeWhile_append_of_all p l [] h
  simpa using this

theorem dropWhile_all {α} {p : α → Bool} {l : List α} (h : l.all p = true) :
    l.dropWhile p = [] := by
  have := dropWhile_append_of_all p l [] h
  simpa using this

/-! ### Decimal digit strings (to state C2 for arbitrary endpoints) -/

/-- The ASCII digit character of `d % 10`. -/
def digChar (d : Nat) : Char := Char.ofNat (48 + d % 10)

theorem digChar_isDigit (d : Nat) : (digChar d).isDigit = true := by
  obtain ⟨m, hm, hlt⟩ : ∃ m, d % 10 = m ∧ m < 10 := ⟨d % 10, rfl, Nat.mod_lt _ (by norm_num)⟩
  unfold digChar
  rw [hm]
  interval_cases m <;> decide

theorem digChar_toNat (d : Nat) : (digChar d).toNat = 48 + d % 10 := by
  obtain ⟨m, hm, hlt⟩ : ∃ m, d % 10 = m ∧ m < 10 := ⟨d % 10, rfl, Nat.mod_lt _ (by norm_num)⟩
  unfold digChar
  rw [hm]
  interval_cases m <;> decide

theorem isDigit_not_space {c : Char} (h : c.isDigit = true) : isPySpace c = false := by
  cases hc : isPySpace c with
  | false => rfl
  | true =>
    exfalso
    simp only [isPySpace, Bool.or_eq_true, beq_iff_eq] at hc
    rcases hc with ((((rfl | rfl) | rfl) | rfl) | rfl) | rfl <;> exact absurd h (by decide)

theorem isDigit_ne_sep {c : Char} (h : c.isDigit = true) : ¬(c = ':' ∨ c = '-') := by
  rintro (rfl | rfl) <;> exact absurd h (by decide)

/-- The decimal digit string of `n`, as produced by Python `str(n)`. -/
def natDigits (n : Nat) : List Char :=
  if _h : n < 10 then [digChar n]
  else natDigits (n / 10) ++ [digChar n]
termination_by n
decreasing_by exact Nat.div_lt_self (by omega) (by omega)

theorem natOfDigits_append_digit (xs : List Char) (c : Char) :
    natOfDigits (xs ++ [c]) = 10 * natOfDigits xs + (c.toNat - 48) := by
  unfold natOfDigits
  rw [List.foldl_append]
  simp only [List.foldl]
  omega

theorem natDigits_spec (n : Nat) :
    (natDigits n).all Char.isDigit = true ∧ natDigits n ≠ [] ∧
      natOfDigits (natDigits n) = n := by
  induction n using Nat.strong_induction_on with
  | _ n ih =>
    by_cases h : n < 10
    · rw [natDigits, dif_pos h]
      refine ⟨by simp [digChar_isDigit], by simp, ?_⟩
      show natOfDigits [digChar n] = n
      unfold natOfDigits
      simp only [List.foldl, digChar_toNat]
      omega
    · obtain ⟨ha, _hb, hc⟩ := ih (n / 10) (Nat.div_lt_self (by omega) (by omega))
      rw [natDigits, dif_neg h]
      refine ⟨?_, by simp, ?_⟩
      · simp [List.all_append, ha, digChar_isDigit]
      · rw [natOfDigits_append_digit, hc, digChar_toNat]
        omega

theorem matchRange_rangeTok (a b : Nat) (sep : Char) (hsep : sep = ':' ∨ sep = '-') :
    matchRange (natDigits a ++ sep :: natDigits b) = some (a, b) := by
  obtain ⟨haD, haN, haV⟩ := natDigits_spec a
  obtain ⟨hbD, hbN, hbV⟩ := natDigits_spec b
  have hsepD : sep.isDigit = false := by rcases hsep with rfl | rfl <;> decide
  have hsepS : isPySpace sep = false := by rcases hsep with rfl | rfl <;> decide
  have h0 : (natDigits a ++ sep :: natDigits b).dropWhile isPySpace =
      natDigits a ++ sep :: natDigits b := by
    cases hA : natDigits a with
    | nil => exact absurd hA haN
    | cons c cs =>
      have hcd : c.isDigit = true := by
        have := List.all_eq_true.mp haD c (by rw [hA]; exact List.mem_cons_self c cs)
        simpa using this
      simp [List.dropWhile_cons, isDigit_not_space hcd]
  have h1 : (natDigits a ++ sep :: natDigits b).takeWhile Char.isDigit = natDigits a := by
    rw [takeWhile_append_of_all _ _ _ haD]
    simp [List.takeWhile_cons, hsepD]
  have h2 : (natDigits a ++ sep :: natDigits b).dropWhile Char.isDigit =
      sep :: natDigits b := by
    rw [dropWhile_append_of_all _ _ _ haD]
    simp [List.dropWhile_cons, hsepD]
  have h3 : (sep :: natDigits b).dropWhile isPySpace = sep :: natDigits b := by
    simp [List.dropWhile_cons, hsepS]
  have h4 : (natDigits b).dropWhile isPySpace = natDigits b := by
    cases hB : natDigits b with
    | nil => exact absurd hB hbN
    | cons c cs =>
      have hcd : c.isDigit = true := by
        have := List.all_eq_true.mp hbD c (by rw [hB]; exact List.mem_cons_self c cs)
        simpa using this
      simp [List.dropWhile_cons, isDigit_not_space hcd]
  have h5 : (natDigits b).takeWhile Char.isDigit = natDigits b := takeWhile_all hbD
  have h6 : (natDigits b).dropWhile Char.isDigit = [] := dropWhile_all hbD
  simp only [matchRange, h0, h1, h2, h3, h4, h5, h6, haV, hbV]
  rw [if_neg haN, if_pos hsep, if_neg hbN]
  simp

/-! ### Loader lemmas -/

theorem contains_eq_true_of_mem {l : List String} {a : String} (h : a ∈ l) :
    l.contains a = true :=
  List.elem_iff.mpr h

theorem mem_of_contains_eq_true {l : List String} {a : String} (h : l.contains a = true) :
    a ∈ l :=
  List.elem_iff.mp h

theorem sel_isPos_false_of_isName {c : Sel} (h : c.isName = true) : c.isPos = false := by
  cases c with
  | pos n => simp [Sel.isName] at h
  | name s => rfl

theorem sel_isName_false_of_isPos {c : Sel} (h : c.isPos = true) : c.isName = false := by
  cases c with
  | pos n => rfl
  | name s => simp [Sel.isPos] at h

/-- A mixed integer/string `usecols` list is always rejected by `read_csv`. -/
theorem readCsvUse_mixed (file : Df) {us : List Sel}
    (hp : ∃ c ∈ us, c.isPos = true) (hn : ∃ c ∈ us, c.isName = true) :
    readCsvUse file us = .error () := by
  obtain ⟨cp, hcp, hcpp⟩ := hp
  obtain ⟨cn, hcn, hcnn⟩ := hn
  have hne : us.isEmpty = false := by
    cases us with
    | nil => simp at hcp
    | cons a l => rfl
  have h1 : us.all Sel.isPos = false := by
    rw [List.all_eq_false]
    exact ⟨cn, hcn, by simp [sel_isPos_false_of_isName hcnn]⟩
  have h2 : us.all Sel.isName = false := by
    rw [List.all_eq_false]
    exact ⟨cp, hcp, by simp [sel_isName_false_of_isPos hcpp]⟩
  simp [readCsvUse, hne, h1, h2]

/-- A non-empty `usecols` list in which every selector is invalid for the
file is always rejected by `read_csv`. -/
theorem readCsvUse_all_invalid (file : Df) {us : List Sel} (hne : us ≠ [])
    (hbad : ∀ c ∈ us, selValid file.header c = false) :
    readCsvUse file us = .error () := by
  have hne' : us.isEmpty = false := List.isEmpty_eq_false.mpr hne
  obtain ⟨c0, hc0⟩ : ∃ c, c ∈ us := by
    cases us with
    | nil => exact absurd rfl hne
    | cons a l => exact ⟨a, List.mem_cons_self a l⟩
  by_cases hP : us.all Sel.isPos = true
  · have hv : us.all
        (fun s => match s with
          | .pos n => decide (n < file.header.length)
          | .name _ => true) = false := by
      rw [List.all_eq_false]
      refine ⟨c0, hc0, ?_⟩
      have hcP : c0.isPos = true := by
        have := List.all_eq_true.mp hP c0 hc0
        simpa using this
      cases c0 with
      | pos n =>
        have hb := hbad (Sel.pos n) hc0
        simp only [selValid] at hb
        simp [hb]
      | name s => simp [Sel.isPos] at hcP
    unfold readCsvUse
    rw [hne']
    simp only [Bool.false_eq_true, if_false]
    rw [hP]
    simp only [if_true]
    rw [hv]
    simp only [Bool.false_eq_true, if_false]
  · by_cases hN : us.all Sel.isName = true
    · have hv : us.all
          (fun s => match s with
            | .name n => file.header.contains n
            | .pos _ => true) = false := by
        rw [List.all_eq_false]
        refine ⟨c0, hc0, ?_⟩
        have hcN : c0.isName = true := by
          have := List.all_eq_true.mp hN c0 hc0
          simpa using this
        cases c0 with
        | pos n => simp [Sel.isName] at hcN
        | name s =>
          have hb := hbad (Sel.name s) hc0
          simp only [selValid] at hb
          show ¬(file.header.contains s = true)
          rw [hb]
          exact Bool.false_ne_true
      have hP' : us.all Sel.isPos = false := by simpa using hP
      unfold readCsvUse
      rw [hne']
      simp only [Bool.false_eq_true, if_false]
      rw [hP']
      simp only [Bool.false_eq_true, if_false]
      rw [hN]
      simp only [if_true]
      rw [hv]
      simp only [Bool.false_eq_true, if_false]
    · have hP' : us.all Sel.isPos = false := by simpa using hP
      have hN' : us.all Sel.isName = false := by simpa using hN
      simp [readCsvUse, hne', hP', hN']

/-- Any successful restricted read of a non-empty selection preserves the
number of data rows. -/
theorem readCsvUse_ok_rows {file : Df} {us : List Sel} {df : Df} (hne : us ≠ [])
    (h : readCsvUse file us = .ok df) : df.rows.length = file.rows.length := by
  have hne' : us.isEmpty = false := List.isEmpty_eq_false.mpr hne
  unfold readCsvUse at h
  rw [hne'] at h
  simp only [Bool.false_eq_true, if_false] at h
  split at h
  · split at h
    · injection h with h'
      subst h'
      simp [selectIdxs]
    · exact Except.noConfusion h
  · split at h
    · split at h
      · injection h with h'
        subst h'
        simp [selectIdxs]
      · exact Except.noConfusion h
    · exact Except.noConfusion h

theorem loadProject_rows_length (file : Df) (keep2 : List String) :
    (loadProject file keep2).rows.length = file.rows.length := by
  unfold loadProject
  split
  · simp [dfProject]
  · rfl

theorem loadRepair_rows_length (file : Df) (fixed : List Sel) :
    (loadRepair file fixed).rows.length = file.rows.length := by
  unfold loadRepair
  by_cases hfix : fixed = []
  · simp [hfix]
  · have hne : fixed.isEmpty = false := List.isEmpty_eq_false.mpr hfix
    rw [hne]
    simp only [Bool.not_false, if_true]
    cases hres : readCsvUse file fixed with
    | ok df => exact readCsvUse_ok_rows hfix hres
    | error e => exact loadProject_rows_length file _

/-- The loader preserves the source's data-row count for every selection
except the degenerate empty one (`usecols=[]`). -/
theorem loadDf_rows_length (file : Df) (cols : Option (List Sel)) (h : cols ≠ some []) :
    (loadDf file cols).rows.length = file.rows.length := by
  cases cols with
  | none => rfl
  | some us =>
    have hus : us ≠ [] := by
      rintro rfl
      exact h rfl
    unfold loadDf readCsv
    dsimp only [Option.getD]
    cases hres : readCsvUse file us with
    | ok df => exact readCsvUse_ok_rows hus hres
    | error e => exact loadRepair_rows_length file _

example : parse_usecols_expr "0-5,9,Name" =
    [Sel.pos 0, Sel.pos 1, Sel.pos 2, Sel.pos 3, Sel.pos 4, Sel.pos 5, Sel.pos 9,
     Sel.name "Name"] := by decide

example : parse_usecols_expr "5-2" = [Sel.pos 2, Sel.pos 3, Sel.pos 4, Sel.pos 5] := by decide

example : parse_usecols_expr " " = [] := by decide

example : parse_usecols_expr "Account, Pro ject" = [Sel.name "Account", Sel.name "Pro ject"] := by
  decide

example : parse_usecols_expr "2:7" =
    [Sel.pos 2, Sel.pos 3, Sel.pos 4, Sel.pos 5, Sel.pos 6, Sel.pos 7] := by decide

example : loadDf ⟨["A", "B", "C"], [["x", "y", "z"]]⟩ (some [Sel.pos 9, Sel.name "B"]) =
    ⟨["B"], [["y"]]⟩ := by decide

example : loadDf ⟨["A", "B", "C"], [["x", "y", "z"]]⟩ (some [Sel.pos 0, Sel.name "B"]) =
    ⟨["A", "B"], [["x", "y"]]⟩ := by decide

example : loadDf ⟨["A", "B", "C"], [["x", "y", "z"]]⟩ (some [Sel.pos 9, Sel.name "Q"]) =
    ⟨["A", "B", "C"], [["x", "y", "z"]]⟩ := by decide

example : csv_to_text ⟨["A", "B"], [["1", "2"]]⟩ (some " ") = ("\n", 0) := by decide

example : csv_to_text ⟨["A", "B"], [["1", "2"]]⟩ none = ("A,B\n1,2\n", 1) := by decide

example : effort_or_none (some "  HIGH ") = some "high" := by decide

example : effort_or_none (some "extreme") = none := by decide

/-! ### More helpers -/

theorem splitComma_of_all_space {cs : List Char} (h : cs.all isPySpace = true) :
    splitComma cs = [cs] := by
  induction cs with
  | nil => rfl
  | cons c rest ih =>
    simp only [List.all_cons, Bool.and_eq_true] at h
    have hc : c ≠ ',' := by
      rintro rfl
      exact absurd h.1 (by decide)
    unfold splitComma
    rw [if_neg hc, ih h.2]

theorem pyStrip_of_all_space {cs : List Char} (h : cs.all isPySpace = true) :
    pyStrip cs = [] := by
  unfold pyStrip
  rw [dropWhile_all h]
  rfl

theorem str_append_empty (s : String) : s ++ "" = s := by
  cases s with
  | mk l => exact congrArg String.mk (List.append_nil l)

theorem dfToCsv_no_rows {df : Df} (h : df.rows = []) :
    dfToCsv df = csvLine df.header ++ "\n" := by
  unfold dfToCsv
  rw [h]
  show csvLine df.header ++ "\n" ++ "" = csvLine df.header ++ "\n"
  exact str_append_empty _

theorem truncCell_length_le (x : String) : (truncCell x).length ≤ 500 := by
  unfold truncCell
  split
  · omega
  · rw [String.length_append]
    have h1 : (String.mk (x.data.take 450)).length = (x.data.take 450).length := rfl
    have h2 : truncMarker.length = 13 := rfl
    have h3 : (x.data.take 450).length ≤ 450 := by
      rw [List.length_take]
      omega
    omega

/-! ### Claim theorems -/

/-- C2: a token written `a:b` or `a-b` (for any non-negative integers `a`,
`b` in decimal) parses to the inclusive ascending range
`min(a,b)..max(a,b)`, independent of the order of the endpoints; in
particular `"0-5,9,Name"` parses to 0,1,2,3,4,5,9,"Name" in that order and
`"5-2"` parses to 2,3,4,5. -/
theorem range_token_ascending (a b : Nat) (sep : Char) (hsep : sep = ':' ∨ sep = '-') :
    parseTok (natDigits a ++ sep :: natDigits b) =
      (List.range' (min a b) (max a b + 1 - min a b)).map Sel.pos ∧
    parse_usecols_expr "0-5,9,Name" =
      [Sel.pos 0, Sel.pos 1, Sel.pos 2, Sel.pos 3, Sel.pos 4, Sel.pos 5, Sel.pos 9,
       Sel.name "Name"] ∧
    parse_usecols_expr "5-2" = [Sel.pos 2, Sel.pos 3, Sel.pos 4, Sel.pos 5] := by
  refine ⟨?_, by decide, by decide⟩
  simp only [parseTok, matchRange_rangeTok a b sep hsep]
  rw [min_def, max_def]

theorem range_token_ascending_witness :
    parseTok (natDigits 5 ++ '-' :: natDigits 2) =
      (List.range' (min 5 2) (max 5 2 + 1 - min 5 2)).map Sel.pos :=
  (range_token_ascending 5 2 '-' (Or.inr rfl)).1

/-- C7: the parser is a total function (never raises): every input reduces to
per-token translation, and a token matching neither the range shape nor the
all-digits shape is kept as a literal column name, byte for byte (internal
whitespace and case preserved by `String.mk tok`). -/
theorem parse_total_name_fallback :
    (∀ expr : String, parse_usecols_expr expr =
      (((splitComma expr.data).map pyStrip).filter (fun t => !t.isEmpty)).flatMap parseTok) ∧
    (∀ tok : List Char, matchRange tok = none → pyIsDigit tok = false →
      parseTok tok = [Sel.name (String.mk tok)]) := by
  refine ⟨fun expr => rfl, fun tok h1 h2 => ?_⟩
  simp [parseTok, h1, h2]

theorem parse_total_name_fallback_witness :
    parseTok (String.data "a B") = [Sel.name (String.mk (String.data "a B"))] :=
  parse_total_name_fallback.2 (String.data "a B") (by decide) (by decide)

/-- C3: a cell longer than 500 characters is replaced by exactly its first
450 characters plus the fixed marker, per cell; cells of length at most 500
are unchanged; every cell of the transformed table has length at most 500,
so a value longer than 500 characters never survives into the serialized
output. -/
theorem trunc_per_cell :
    (∀ x : String, x.length ≤ 500 → truncCell x = x) ∧
    (∀ x : String, 500 < x.length →
      truncCell x = String.mk (x.data.take 450) ++ truncMarker ∧
      (truncCell x).length = 463 ∧
      (truncCell x).data.take 450 = x.data.take 450) ∧
    (∀ df : Df, (transformDf df).header = df.header ∧
      (transformDf df).rows = df.rows.map (fun r => r.map truncCell)) ∧
    (∀ (df : Df) (x : String), 500 < x.length →
      ∀ r ∈ (transformDf df).rows, ∀ c ∈ r, c.length < x.length) := by
  refine ⟨?_, ?_, fun df => ⟨rfl, rfl⟩, ?_⟩
  · intro x h
    unfold truncCell
    rw [if_pos h]
  · intro x h
    have hne : ¬ x.length ≤ 500 := by omega
    have heq : truncCell x = String.mk (x.data.take 450) ++ truncMarker := by
      unfold truncCell
      rw [if_neg hne]
    have hxl : x.length = x.data.length := rfl
    have hlen450 : (x.data.take 450).length = 450 := by
      rw [List.length_take]
      omega
    refine ⟨heq, ?_, ?_⟩
    · rw [heq, String.length_append]
      show (x.data.take 450).length + truncMarker.length = 463
      rw [hlen450]
      rfl
    · rw [heq]
      show (x.data.take 450 ++ truncMarker.data).take 450 = x.data.take 450
      have hl := List.take_left (x.data.take 450) truncMarker.data
      rw [hlen450] at hl
      exact hl
  · intro df x hx r hr c hc
    obtain ⟨r0, _hr0, rfl⟩ := List.mem_map.mp hr
    obtain ⟨c0, _hc0, rfl⟩ := List.mem_map.mp hc
    have := truncCell_length_le c0
    omega

set_option maxRecDepth 8000 in
theorem trunc_per_cell_witness :
    truncCell (String.mk (List.replicate 501 'a')) =
      String.mk ((String.mk (List.replicate 501 'a')).data.take 450) ++ truncMarker :=
  (trunc_per_cell.2.1 (String.mk (List.replicate 501 'a')) (by decide)).1

/-- C6 counterexample: a whitespace-only (but non-empty) specification string
parses to the empty selector list, yet the loader does not read the entire
file: `csv_to_text` passes `usecols=[]` to the reader and gets back a
zero-column, zero-row table, which serializes to a single blank line, while
the unrestricted read of the same file yields the full table. -/
theorem empty_spec_counterexample :
    parse_usecols_expr " " = [] ∧
    csv_to_text ⟨["A", "B"], [["1", "2"]]⟩ (some " ") = ("\n", 0) ∧
    csv_to_text ⟨["A", "B"], [["1", "2"]]⟩ none = ("A,B\n1,2\n", 1) := by
  decide

/-- C6 amended: empty or whitespace-only input parses to the empty selector
list; the loader reads the entire file when the specification string is
absent or empty (those are the cases where the caller passes `usecols=None`);
but a whitespace-only non-empty string makes the loader pass the empty
selector list to the reader, which returns the empty table instead of the
full file. -/
theorem empty_spec_amended :
    (∀ s : String, s.data.all isPySpace = true → parse_usecols_expr s = []) ∧
    (∀ file : Df, loadDf file (colsOf none) = file ∧ loadDf file (colsOf (some "")) = file) ∧
    (∀ file : Df, loadDf file (some []) = ⟨[], []⟩) := by
  refine ⟨?_, fun file => ⟨rfl, rfl⟩, fun file => rfl⟩
  intro s hs
  unfold parse_usecols_expr
  rw [splitComma_of_all_space hs]
  simp [pyStrip_of_all_space hs]

theorem empty_spec_amended_witness : parse_usecols_expr "\t " = [] :=
  empty_spec_amended.1 "\t " (by decide)

/-- C8 counterexample: with a whitespace-only column specification the
returned row count is 0 even though the source file has one data row. -/
theorem rowcount_counterexample :
    (csv_to_text ⟨["A", "B"], [["1", "2"]]⟩ (some " ")).2 = 0 ∧
    (Df.mk ["A", "B"] [["1", "2"]]).rows.length = 1 := by
  decide

/-- C8 amended: for every file and every column specification that does not
parse to the empty selector list (absent and empty specifications included),
the returned row count equals the number of data rows of the source file,
and it is the row count of the loaded table before the fill/truncate
transforms; a whitespace-only specification instead yields the empty table
and row count 0. -/
theorem rowcount_amended (file : Df) (u : Option String) (h : colsOf u ≠ some []) :
    (csv_to_text file u).2 = file.rows.length ∧
    (csv_to_text file u).2 = (loadDf file (colsOf u)).rows.length :=
  ⟨loadDf_rows_length file (colsOf u) h, rfl⟩

theorem rowcount_amended_witness :
    (csv_to_text ⟨["A"], [["x"], ["y"]]⟩ (some "A")).2 =
      (Df.mk ["A"] [["x"], ["y"]]).rows.length :=
  (rowcount_amended ⟨["A"], [["x"], ["y"]]⟩ (some "A") (by decide)).1

/-- C9: the serialized text produced by `csv_to_text` always starts with the
header line and a newline, and for a dataset with zero data rows it is
exactly the header line and no data lines. -/
theorem serialized_header_row (file : Df) (u : Option String) :
    (∃ rest : String, (csv_to_text file u).1 =
      csvLine (loadDf file (colsOf u)).header ++ "\n" ++ rest) ∧
    ((loadDf file (colsOf u)).rows = [] →
      (csv_to_text file u).1 = csvLine (loadDf file (colsOf u)).header ++ "\n") := by
  constructor
  · exact ⟨String.join ((transformDf (loadDf file (colsOf u))).rows.map
      (fun r => csvLine r ++ "\n")), rfl⟩
  · intro h
    have hrows : (transformDf (loadDf file (colsOf u))).rows = [] := by
      show (loadDf file (colsOf u)).rows.map (fun r => r.map truncCell) = []
      rw [h]
      rfl
    calc (csv_to_text file u).1
        = dfToCsv (transformDf (loadDf file (colsOf u))) := rfl
      _ = csvLine (transformDf (loadDf file (colsOf u))).header ++ "\n" := dfToCsv_no_rows hrows
      _ = csvLine (loadDf file (colsOf u)).header ++ "\n" := rfl

theorem serialized_header_row_witness :
    (csv_to_text ⟨["A", "B"], []⟩ none).1 =
      csvLine (loadDf ⟨["A", "B"], []⟩ (colsOf none)).header ++ "\n" :=
  (serialized_header_row ⟨["A", "B"], []⟩ none).2 rfl

/-- C10: the reasoning-effort value is stripped and lowercased before
validation: whenever the stripped lowercase form is one of minimal, low,
medium, high, that normalized value is kept and included in the request;
for every other non-empty input the parameter is omitted. -/
theorem effort_trim_lower_validation (s : String) :
    ((pyLower (pyStripStr s) = "minimal" ∨ pyLower (pyStripStr s) = "low" ∨
      pyLower (pyStripStr s) = "medium" ∨ pyLower (pyStripStr s) = "high") →
      effort_or_none (some s) = some (pyLower (pyStripStr s)) ∧
      reasoningField (effort_or_none (some s)) = some (pyLower (pyStripStr s))) ∧
    (s ≠ "" →
      ¬(pyLower (pyStripStr s) = "minimal" ∨ pyLower (pyStripStr s) = "low" ∨
        pyLower (pyStripStr s) = "medium" ∨ pyLower (pyStripStr s) = "high") →
      effort_or_none (some s) = none ∧ reasoningField (effort_or_none (some s)) = none) := by
  constructor
  · intro hv
    have hs0 : s ≠ "" := by
      rintro rfl
      exact absurd hv (by decide)
    have hvne : pyLower (pyStripStr s) ≠ "" := by
      rcases hv with h | h | h | h <;> rw [h] <;> decide
    have he : effort_or_none (some s) = some (pyLower (pyStripStr s)) := by
      unfold effort_or_none
      dsimp only
      rw [if_neg hs0, if_pos hv]
    refine ⟨he, ?_⟩
    rw [he]
    unfold reasoningField
    dsimp only
    rw [if_neg hvne]
  · intro hs0 hv
    have he : effort_or_none (some s) = none := by
      unfold effort_or_none
      dsimp only
      rw [if_neg hs0, if_neg hv]
    exact ⟨he, by rw [he]; rfl⟩

theorem effort_trim_lower_validation_witness :
    effort_or_none (some "  HIGH ") = some (pyLower (pyStripStr "  HIGH ")) :=
  ((effort_trim_lower_validation "  HIGH ").1 (by decide)).1

/-- C1: for every file with header `A,B,C` and every specification string
parsing to an out-of-range position (any `p ≥ 3`) together with the valid
name `B`, the loader drops the invalid position silently, returns the data
restricted to column `B` only, and returns normally with the source's row
count. -/
theorem loader_invalid_pos_valid_name (p : Nat) (rows : List (List String)) (u : String)
    (hp : 3 ≤ p) (hu : parse_usecols_expr u = [Sel.pos p, Sel.name "B"]) :
    loadDf ⟨["A", "B", "C"], rows⟩ (colsOf (some u)) =
      ⟨["B"], rows.map (fun r => [r.getD 1 ""])⟩ ∧
    (csv_to_text ⟨["A", "B", "C"], rows⟩ (some u)).2 = rows.length := by
  have hu0 : u ≠ "" := by
    rintro rfl
    rw [show parse_usecols_expr "" = [] from rfl] at hu
    exact List.noConfusion hu
  have hcols : colsOf (some u) = some [Sel.pos p, Sel.name "B"] := by
    unfold colsOf
    dsimp only
    rw [if_neg hu0, hu]
  have hmix : readCsvUse ⟨["A", "B", "C"], rows⟩ [Sel.pos p, Sel.name "B"] = .error () :=
    readCsvUse_mixed _ ⟨Sel.pos p, by simp, rfl⟩ ⟨Sel.name "B", by simp, rfl⟩
  have hdp : decide (p < 3) = false := by
    simp only [decide_eq_false_iff_not]
    omega
  have hfilter : [Sel.pos p, Sel.name "B"].filter (selValid ["A", "B", "C"]) =
      [Sel.name "B"] := by
    simp [List.filter, selValid, hdp]
  have hload : loadDf ⟨["A", "B", "C"], rows⟩ (colsOf (some u)) =
      ⟨["B"], rows.map (fun r => [r.getD 1 ""])⟩ := by
    rw [hcols]
    unfold loadDf readCsv
    dsimp only [Option.getD]
    rw [hmix]
    dsimp only
    rw [hfilter]
    rfl
  refine ⟨hload, ?_⟩
  show (loadDf ⟨["A", "B", "C"], rows⟩ (colsOf (some u))).rows.length = rows.length
  rw [hload]
  simp

theorem loader_invalid_pos_valid_name_witness :
    loadDf ⟨["A", "B", "C"], [["a", "b", "c"]]⟩ (colsOf (some "9,B")) =
      ⟨["B"], [["a", "b", "c"]].map (fun r => [r.getD 1 ""])⟩ :=
  (loader_invalid_pos_valid_name 9 [["a", "b", "c"]] "9,B" (by norm_num) (by decide)).1

/-- C4: for every specification in which every selector is invalid for the
file (and there is at least one selector), the loader returns the full
unrestricted table, and `csv_to_text` serializes exactly that table with its
full row count. -/
theorem loader_all_invalid_full_table (file : Df) (u : String)
    (hne : parse_usecols_expr u ≠ [])
    (hbad : ∀ c ∈ parse_usecols_expr u, selValid file.header c = false) :
    loadDf file (colsOf (some u)) = file ∧
    csv_to_text file (some u) = (dfToCsv (transformDf file), file.rows.length) := by
  have hu0 : u ≠ "" := by
    rintro rfl
    exact hne rfl
  have hcols : colsOf (some u) = some (parse_usecols_expr u) := by
    unfold colsOf
    dsimp only
    rw [if_neg hu0]
  have hf : (parse_usecols_expr u).filter (selValid file.header) = [] := by
    rw [List.filter_eq_nil_iff]
    intro a ha
    rw [hbad a ha]
    exact Bool.false_ne_true
  have hload : loadDf file (colsOf (some u)) = file := by
    rw [hcols]
    unfold loadDf readCsv
    dsimp only [Option.getD]
    rw [readCsvUse_all_invalid file hne hbad]
    dsimp only
    rw [hf]
    rfl
  refine ⟨hload, ?_⟩
  show (dfToCsv (transformDf (loadDf file (colsOf (some u)))),
    (loadDf file (colsOf (some u))).rows.length) =
    (dfToCsv (transformDf file), file.rows.length)
  rw [hload]

theorem loader_all_invalid_full_table_witness :
    loadDf ⟨["A"], [["x"]]⟩ (colsOf (some "5,Z")) = ⟨["A"], [["x"]]⟩ :=
  (loader_all_invalid_full_table ⟨["A"], [["x"]]⟩ "5,Z" (by decide) (by decide)).1

/-- C5: for every specification mixing integer positions and names freely,
all valid for the file, the loader returns normally: the pandas read rejects
the mixed list twice, so the repair path projects the full table onto the
selected columns (position selectors mapped to their header names first,
then name selectors); the resulting columns are exactly the selected ones,
and the row count is unchanged. -/
theorem loader_mixed_valid_selection (file : Df) (u : String)
    (hp : ∃ c ∈ parse_usecols_expr u, c.isPos = true)
    (hn : ∃ c ∈ parse_usecols_expr u, c.isName = true)
    (hval : ∀ c ∈ parse_usecols_expr u, selValid file.header c = true) :
    loadDf file (colsOf (some u)) =
      dfProject file ((parse_usecols_expr u).filterMap (posKeepName file.header) ++
        (parse_usecols_expr u).filterMap nameKeep) ∧
    (∀ s : String, s ∈ (loadDf file (colsOf (some u))).header ↔
      s ∈ (parse_usecols_expr u).map
        (fun c => match c with | Sel.pos n => file.header.getD n "" | Sel.name m => m)) ∧
    (csv_to_text file (some u)).2 = file.rows.length := by
  obtain ⟨cp, hcp, hcpp⟩ := hp
  obtain ⟨cn, hcn, hcnn⟩ := hn
  have hu0 : u ≠ "" := by
    rintro rfl
    rw [show parse_usecols_expr "" = [] from rfl] at hcp
    exact absurd hcp (List.not_mem_nil cp)
  have hcols : colsOf (some u) = some (parse_usecols_expr u) := by
    unfold colsOf
    dsimp only
    rw [if_neg hu0]
  have hcolne : parse_usecols_expr u ≠ [] := by
    rintro h
    rw [h] at hcp
    exact absurd hcp (List.not_mem_nil cp)
  have hmix : readCsvUse file (parse_usecols_expr u) = .error () :=
    readCsvUse_mixed file ⟨cp, hcp, hcpp⟩ ⟨cn, hcn, hcnn⟩
  have hfix : (parse_usecols_expr u).filter (selValid file.header) = parse_usecols_expr u :=
    List.filter_eq_self.mpr hval
  have hkeepmem : ∀ s ∈ (parse_usecols_expr u).filterMap (posKeepName file.header) ++
      (parse_usecols_expr u).filterMap nameKeep, file.header.contains s = true := by
    intro s hs
    rcases List.mem_append.mp hs with hs | hs
    · obtain ⟨c, hc, hcs⟩ := List.mem_filterMap.mp hs
      cases c with
      | pos n =>
        simp only [posKeepName, Option.some.injEq] at hcs
        have hv := hval (Sel.pos n) hc
        simp only [selValid, decide_eq_true_eq] at hv
        subst hcs
        apply contains_eq_true_of_mem
        rw [List.getD_eq_getElem _ _ hv]
        exact List.getElem_mem hv
      | name m => simp [posKeepName] at hcs
    · obtain ⟨c, hc, hcs⟩ := List.mem_filterMap.mp hs
      cases c with
      | pos n => simp [nameKeep] at hcs
      | name m =>
        simp only [nameKeep, Option.some.injEq] at hcs
        subst hcs
        exact hval (Sel.name m) hc
  have hkeepne : (parse_usecols_expr u).filterMap (posKeepName file.header) ++
      (parse_usecols_expr u).filterMap nameKeep ≠ [] := by
    have hx : ∃ x, x ∈ (parse_usecols_expr u).filterMap (posKeepName file.header) := by
      cases cp with
      | pos n => exact ⟨file.header.getD n "", List.mem_filterMap.mpr ⟨Sel.pos n, hcp, rfl⟩⟩
      | name m => simp [Sel.isPos] at hcpp
    obtain ⟨x, hx⟩ := hx
    intro h
    have hx2 : x ∈ (parse_usecols_expr u).filterMap (posKeepName file.header) ++
        (parse_usecols_expr u).filterMap nameKeep := List.mem_append.mpr (Or.inl hx)
    rw [h] at hx2
    exact absurd hx2 (List.not_mem_nil x)
  have hkfilter : ((parse_usecols_expr u).filterMap (posKeepName file.header) ++
      (parse_usecols_expr u).filterMap nameKeep).filter (fun c => file.header.contains c) =
      (parse_usecols_expr u).filterMap (posKeepName file.header) ++
      (parse_usecols_expr u).filterMap nameKeep :=
    List.filter_eq_self.mpr hkeepmem
  have hload : loadDf file (colsOf (some u)) =
      dfProject file ((parse_usecols_expr u).filterMap (posKeepName file.header) ++
        (parse_usecols_expr u).filterMap nameKeep) := by
    rw [hcols]
    unfold loadDf readCsv
    dsimp only [Option.getD]
    rw [hmix]
    dsimp only
    rw [hfix]
    unfold loadRepair
    rw [List.isEmpty_eq_false.mpr hcolne]
    rw [hmix]
    unfold loadProject
    rw [hkfilter, List.isEmpty_eq_false.mpr hkeepne]
    rfl
  refine ⟨hload, ?_, ?_⟩
  · intro s
    rw [hload]
    show s ∈ (parse_usecols_expr u).filterMap (posKeepName file.header) ++
      (parse_usecols_expr u).filterMap nameKeep ↔ _
    constructor
    · intro hs
      rcases List.mem_append.mp hs with hs | hs
      · obtain ⟨c, hc, hcs⟩ := List.mem_filterMap.mp hs
        cases c with
        | pos n =>
          simp only [posKeepName, Option.some.injEq] at hcs
          exact List.mem_map.mpr ⟨Sel.pos n, hc, hcs⟩
        | name m => simp [posKeepName] at hcs
      · obtain ⟨c, hc, hcs⟩ := List.mem_filterMap.mp hs
        cases c with
        | pos n => simp [nameKeep] at hcs
        | name m =>
          simp only [nameKeep, Option.some.injEq] at hcs
          exact List.mem_map.mpr ⟨Sel.name m, hc, hcs⟩
    · intro hs
      obtain ⟨c, hc, hcs⟩ := List.mem_map.mp hs
      cases c with
      | pos n =>
        dsimp only at hcs
        exact List.mem_append.mpr
          (Or.inl (List.mem_filterMap.mpr ⟨Sel.pos n, hc, congrArg some hcs⟩))
      | name m =>
        dsimp only at hcs
        exact List.mem_append.mpr
          (Or.inr (List.mem_filterMap.mpr ⟨Sel.name m, hc, congrArg some hcs⟩))
  · show (loadDf file (colsOf (some u))).rows.length = file.rows.length
    rw [hload]
    simp [dfProject]

theorem loader_mixed_valid_selection_witness :
    loadDf ⟨["A", "B"], [["1", "2"]]⟩ (colsOf (some "0,B")) =
      dfProject ⟨["A", "B"], [["1", "2"]]⟩
        ((parse_usecols_expr "0,B").filterMap (posKeepName ["A", "B"]) ++
          (parse_usecols_expr "0,B").filterMap nameKeep) :=
  (loader_mixed_valid_selection ⟨["A", "B"], [["1", "2"]]⟩ "0,B"
    ⟨Sel.pos 0, by decide, rfl⟩ ⟨Sel.name "B", by decide, rfl⟩ (by decide)).1
